import Mathlib

/-!
# CHIP-8 interpreter (`src/main.c`): shallow embedding

The interpreter is one C function, `main`, whose loop body fetches a 16-bit
instruction, advances `pc`, decodes the instruction with `get_hex` and
dispatches on the leading nibble; after the dispatch both timers are updated.

Conventions of the embedding.

* Machine integers are `Nat`, truncated explicitly (`% 256` for `uint8_t`,
  `% 65536` for `uint16_t`) wherever the C type truncates.
* The arrays of `struct Chip8` are functions `Nat → Nat`; every access whose
  index is not known to be in range is guarded, and an out-of-range access
  ends the run with `Fault.outOfBounds` (C gives it no meaning).
* `exit(1)` ends the run with `Fault.exit`.
* `sprite_bit << x_idx` (line 412) is a shift of a promoted `int`, not of the
  `uint64_t` row; `shl_int` gives its value.
* The host (raylib keyboard, `rand()`) is a parameter, `Host`.
* The file `ibm.ch8` and the size `BUFSIZ` that `<stdio.h>` gives the read
  buffer are parameters of `startup`; reading more than the buffer holds is an
  out-of-range access.
* `printf`, the window, `sleep` and the local `should_draw` are output only
  and are not part of the state.
-/

namespace Interp

/-- Ways in which an iteration of the main loop does not produce a next state. -/
inductive Fault where
  /-- the program called `exit(1)` -/
  | exit
  /-- an array was indexed outside its bounds -/
  | outOfBounds
  deriving DecidableEq, Repr

/-- The `struct Chip8` of the source (lines 69-82). -/
structure Chip8 where
  memory : Nat → Nat
  registers : Nat → Nat
  i_register : Nat
  stack : Nat → Nat
  pc : Nat
  sp : Nat
  display : Nat → Nat
  timer : Nat
  sound : Nat

/-- What the host provides during one iteration: `keyDown i` is
`IsKeyDown(keys[i])` and `rand` is the value returned by `rand()`. -/
structure Host where
  keyDown : Nat → Bool
  rand : Nat

/-- Array store `a[i] = v`. -/
def upd (a : Nat → Nat) (i v : Nat) : Nat → Nat :=
  fun k => if k = i then v else a k

/-- The array `font` (lines 27-44). -/
def font : List Nat :=
  [0xF0, 0x90, 0x90, 0x90, 0xF0,
   0x20, 0x60, 0x20, 0x20, 0x70,
   0xF0, 0x10, 0xF0, 0x80, 0xF0,
   0xF0, 0x10, 0xF0, 0x10, 0xF0,
   0x90, 0x90, 0xF0, 0x10, 0x10,
   0xF0, 0x80, 0xF0, 0x10, 0xF0,
   0xF0, 0x80, 0xF0, 0x90, 0xF0,
   0xF0, 0x10, 0x20, 0x40, 0x40,
   0xF0, 0x90, 0xF0, 0x90, 0xF0,
   0xF0, 0x90, 0xF0, 0x10, 0xF0,
   0xF0, 0x90, 0xF0, 0x90, 0x90,
   0xE0, 0x90, 0xE0, 0x90, 0xE0,
   0xF0, 0x80, 0x80, 0x80, 0xF0,
   0xE0, 0x90, 0x90, 0x90, 0xE0,
   0xF0, 0x80, 0xF0, 0x80, 0xF0,
   0xF0, 0x80, 0xF0, 0x80, 0x80]

/-- The array `program` (lines 46-48). -/
def program : List Nat :=
  [0x61, 0x00, 0x71, 0x01, 0x12, 0x02]

/-- Function `get_hex` (lines 583-586): `(instruction >> (digit * 4)) & 0xF`. -/
def get_hex (instruction digit : Nat) : Nat :=
  ((instruction >>> (digit * 4)) &&& 0xF) % 256

/-- The loop of `memory_set` from iteration `i` on, over the data not yet
copied: it returns as soon as `offset + i` reaches `m_length`. -/
def memory_set_from (memory : Nat → Nat) (m_length offset : Nat) :
    Nat → List Nat → (Nat → Nat)
  | _, [] => memory
  | i, d :: ds =>
    if offset + i ≥ m_length then memory
    else memory_set_from (upd memory (offset + i) d) m_length offset (i + 1) ds

/-- Function `memory_set` (lines 632-642); `data` holds at least `d_length`
bytes. -/
def memory_set (memory : Nat → Nat) (data : List Nat)
    (m_length d_length offset : Nat) : Nat → Nat :=
  memory_set_from memory m_length offset 0 (data.take d_length)

/-- A counted loop `for (i = 0; i < n; i++) body`, stopping at the first fault. -/
def for_loop {σ : Type} (body : σ → Nat → Except Fault σ) : Nat → σ → Except Fault σ
  | 0, s => .ok s
  | n + 1, s =>
    match for_loop body n s with
    | .ok s1 => body s1 n
    | .error e => .error e

/-- The C expression `sprite_bit << x_idx` as it enters the `uint64_t` XOR of
line 412. `sprite_bit` is promoted to a 32-bit `int`, so the shift is a 32-bit
shift (the count is taken modulo 32, as the shift instructions of x86-64 and
AArch64 do) and the `int` result is then converted to `uint64_t`, which
sign-extends it: `1 << 31` is `INT_MIN`, and a negative `int` converts to
`uint64_t` by adding `2 ^ 64`. For `x_idx < 31` this is `sprite_bit * 2 ^ x_idx`. -/
def shl_int (sprite_bit x_idx : Nat) : Nat :=
  let v := (sprite_bit * 2 ^ (x_idx % 32)) % 2 ^ 32
  if v ≥ 2 ^ 31 then v + (2 ^ 64 - 2 ^ 32) else v

/-- Body of the inner loop of `Dxyn` (lines 402-412) for column offset `j`. -/
def draw_col (x y_idx sprite_data : Nat) (s : Chip8) (j : Nat) : Chip8 :=
  let x_idx := ((s.registers x + j) % 64) % 256
  let sprite_bit := ((sprite_data >>> j) &&& 0x1) % 256
  let s1 : Chip8 :=
    if ((s.display y_idx >>> x_idx) &&& 0x1) = 1 ∧ sprite_bit = 1 then
      { s with registers := upd s.registers 0xF 1 }
    else s
  { s1 with display := upd s1.display y_idx (s1.display y_idx ^^^ shl_int sprite_bit x_idx) }

/-- Body of the outer loop of `Dxyn` (lines 398-413) for row offset `i`. -/
def draw_row (x y : Nat) (s : Chip8) (i : Nat) : Except Fault Chip8 :=
  let y_idx := ((s.registers y + i) % 32) % 256
  if s.i_register + i < 4096 then
    let sprite_data := s.memory (s.i_register + i)
    for_loop (fun t j => .ok (draw_col x y_idx sprite_data t j)) 8 s
  else .error .outOfBounds

/-- Case `0xD` (lines 395-414): `Dxyn`. -/
def draw (x y n : Nat) (s : Chip8) : Except Fault Chip8 :=
  for_loop (draw_row x y) n { s with registers := upd s.registers 0xF 0 }

/-- Body of the key scan of `Fx0A` (lines 478-481); the state carries
`key_pressed`. -/
def key_scan (h : Host) (x : Nat) (t : Chip8 × Bool) (i : Nat) : Except Fault (Chip8 × Bool) :=
  if h.keyDown i then
    .ok ({ t.1 with registers := upd t.1.registers x (i % 256) }, true)
  else .ok t

/-- Conversion of an `int` to `uint8_t`. -/
def to_u8 (z : Int) : Nat := (z % 256).toNat

/-- Case `0x8` (lines 247-350): the arithmetic group, on the low nibble `n`. -/
def exec_alu (s : Chip8) (x y n : Nat) : Chip8 :=
  match n with
  | 0x0 => { s with registers := upd s.registers x (s.registers y) }
  | 0x1 => { s with registers := upd s.registers x (s.registers x ||| s.registers y) }
  | 0x2 => { s with registers := upd s.registers x (s.registers x &&& s.registers y) }
  | 0x3 => { s with registers := upd s.registers x (s.registers x ^^^ s.registers y) }
  | 0x4 =>
    let val := (s.registers x + s.registers y) % 65536
    let s1 : Chip8 :=
      if val > 0xFF then { s with registers := upd s.registers 0xF 1 }
      else { s with registers := upd s.registers 0xF 0 }
    { s1 with registers := upd s1.registers x (val % 256) }
  | 0x5 =>
    let s1 : Chip8 :=
      if s.registers x > s.registers y then { s with registers := upd s.registers 0xF 0 }
      else { s with registers := upd s.registers 0xF 1 }
    let diff : Int := (s1.registers x : Int) - (s1.registers y : Int)
    { s1 with registers := upd s1.registers x (to_u8 diff) }
  | 0x6 =>
    let s1 : Chip8 := { s with registers := upd s.registers 0xF (s.registers x &&& 0x1) }
    { s1 with registers := upd s1.registers x (s1.registers x >>> 1) }
  | 0x7 =>
    let s1 : Chip8 :=
      if s.registers y > s.registers x then { s with registers := upd s.registers 0xF 1 }
      else { s with registers := upd s.registers 0xF 0 }
    let diff : Int := (s1.registers y : Int) - (s1.registers x : Int)
    { s1 with registers := upd s1.registers x (to_u8 diff) }
  | 0xE =>
    let s1 : Chip8 := { s with registers := upd s.registers 0xF ((s.registers x >>> 7) &&& 0x1) }
    { s1 with registers := upd s1.registers x ((s1.registers x <<< 1) % 256) }
  | _ => s

/-- Case `0xF` (lines 461-551), on the low byte `nn`. -/
def exec_misc (h : Host) (s : Chip8) (x nn : Nat) : Except Fault Chip8 :=
  match nn with
  | 0x07 => .ok { s with registers := upd s.registers x s.timer }
  | 0x0A =>
    match for_loop (key_scan h x) 16 (s, false) with
    | .ok (s1, key_pressed) =>
      if !key_pressed then .ok { s1 with pc := (s1.pc + 65534) % 65536 }
      else .ok s1
    | .error e => .error e
  | 0x15 => .ok { s with timer := s.registers x }
  | 0x18 => .ok { s with sound := s.registers x }
  | 0x1E => .ok { s with i_register := (s.i_register + s.registers x) % 65536 }
  | 0x29 => .ok { s with i_register := s.registers x }
  | 0x33 =>
    if s.i_register + 2 < 4096 then
      let s1 : Chip8 := { s with memory := upd s.memory (s.i_register + 2) (s.registers x % 10) }
      let s2 : Chip8 :=
        { s1 with memory := upd s1.memory (s1.i_register + 1) ((s1.registers x / 10) % 10) }
      .ok { s2 with memory := upd s2.memory s2.i_register ((s2.registers x / 100) % 10) }
    else .error .outOfBounds
  | 0x55 => .ok s
  | 0x65 => .ok s
  | _ => .ok s

/-- The `switch` of the main loop (lines 128-553): decode `instruction` and
execute it. `s.pc` has already been advanced past the instruction. -/
def exec (h : Host) (s : Chip8) (instruction : Nat) : Except Fault Chip8 :=
  let x := get_hex instruction 2
  let y := get_hex instruction 1
  let n := get_hex instruction 0
  let nn := (instruction &&& 0xFF) % 256
  let nnn := (instruction &&& 0xFFF) % 65536
  match get_hex instruction 3 with
  | 0x0 =>
    match nn with
    | 0xE0 => .ok { s with display := fun i => if i < 32 then 0 else s.display i }
    | 0xEE =>
      if s.sp = 0 then .error .exit
      else if s.sp - 1 < 16 then .ok { s with pc := s.stack (s.sp - 1), sp := s.sp - 1 }
      else .error .outOfBounds
    | _ => .ok s
  | 0x1 => .ok { s with pc := nnn }
  | 0x2 =>
    if s.sp < 16 then .ok { s with stack := upd s.stack s.sp s.pc, sp := s.sp + 1, pc := nnn }
    else .error .outOfBounds
  | 0x3 => if s.registers x = nn then .ok { s with pc := (s.pc + 2) % 65536 } else .ok s
  | 0x4 => if s.registers x ≠ nn then .ok { s with pc := (s.pc + 2) % 65536 } else .ok s
  | 0x5 =>
    if s.registers x = s.registers y then .ok { s with pc := (s.pc + 2) % 65536 } else .ok s
  | 0x6 => .ok { s with registers := upd s.registers x nn }
  | 0x7 => .ok { s with registers := upd s.registers x ((s.registers x + nn) % 256) }
  | 0x8 => .ok (exec_alu s x y n)
  | 0x9 =>
    if s.registers x ≠ s.registers y then .ok { s with pc := (s.pc + 2) % 65536 } else .ok s
  | 0xA => .ok { s with i_register := nnn }
  | 0xB => .ok { s with pc := (nnn + s.registers 0) % 65536 }
  | 0xC =>
    let random := (h.rand % 254) % 256
    .ok { s with registers := upd s.registers x (nn &&& random) }
  | 0xD => draw x y n s
  | 0xE =>
    match nn with
    | 0x9E =>
      if s.registers x > 0xF then .error .exit
      else if h.keyDown (s.registers x) then .ok { s with pc := (s.pc + 2) % 65536 }
      else .ok s
    | 0xA1 =>
      if s.registers x > 0xF then .error .exit
      else if !h.keyDown (s.registers x) then .ok { s with pc := (s.pc + 2) % 65536 }
      else .ok s
    | _ => .ok s
  | 0xF => exec_misc h s x nn
  | _ => .ok s

/-- One timer update (lines 555-559, and again 561-565). -/
def timer_update (t : Nat) : Nat :=
  if t = 0 then 0xFF else t - 1

/-- The timer updates at the end of an iteration (lines 555-565). -/
def tick (s : Chip8) : Chip8 :=
  { s with timer := timer_update s.timer, sound := timer_update s.sound }

/-- Fetch (lines 124-126), then decode and execute. -/
def step (h : Host) (s : Chip8) : Except Fault Chip8 :=
  if s.pc + 1 < 4096 then
    let instruction := ((s.memory s.pc <<< 8) ||| s.memory (s.pc + 1)) % 65536
    exec h { s with pc := (s.pc + 2) % 65536 } instruction
  else .error .outOfBounds

/-- One iteration of the main loop (lines 124-565). -/
def cycle (h : Host) (s : Chip8) : Except Fault Chip8 :=
  match step h s with
  | .ok s1 => .ok (tick s1)
  | .error e => .error e

/-- Consecutive iterations of the main loop, one per host snapshot. -/
def run : List Host → Chip8 → Except Fault Chip8
  | [], s => .ok s
  | h :: hs, s =>
    match cycle h s with
    | .ok s1 => run hs s1
    | .error e => .error e

/-- The zero-initialised `cpu` of line 88. -/
def zeroed : Chip8 :=
  { memory := fun _ => 0, registers := fun _ => 0, i_register := 0, stack := fun _ => 0,
    pc := 0x200, sp := 0, display := fun _ => 0, timer := 0, sound := 0 }

/-- The machine that start-up builds (lines 88-95 and 106-109) once `fread` has
left the `buf_length` bytes `image` in `buf`: the font is copied with
`memory_set(cpu.memory, font, 4096, 80, 80)`, the image with
`memory_set(cpu.memory, buf, 4096, buf_length, 512)`, and `pc` is set to 512.
Whether the bytes of the file fit `buf` is decided in `startup`. -/
def init (image : List Nat) : Chip8 :=
  let m1 := memory_set zeroed.memory font 4096 80 80
  let m2 := memory_set m1 image 4096 image.length 512
  { zeroed with memory := m2, pc := 512 }

/-- The macro `BUFSIZE` (line 18), the count passed to `fread`. -/
def BUFSIZE : Nat := 1000000

/-- Start-up (lines 88-109) from the file `ibm.ch8`. `file` is `none` when
`fopen` fails, which ends in `exit(1)`, and otherwise holds the bytes of the
file. `bufsiz` is the value of the `<stdio.h>` macro `BUFSIZ`, the size of
`buf` (line 103). `fread` stores `buf_length = min(length, BUFSIZE)` bytes in
`buf` (line 104); when that is more than `bufsiz` it writes past the end of
`buf`. -/
def startup (bufsiz : Nat) (file : Option (List Nat)) : Except Fault Chip8 :=
  match file with
  | none => .error .exit
  | some bytes =>
    let buf_length := min bytes.length BUFSIZE
    if buf_length ≤ bufsiz then .ok (init (bytes.take buf_length))
    else .error .outOfBounds

/-! ## Scenarios: hosts, program images, observations -/

/-- A host with no key held down and `rand()` returning 0. -/
def host0 : Host :=
  { keyDown := fun _ => false, rand := 0 }

/-- What `f` sees in the final state of a run, if the run produced one. -/
def observe {α : Type} (f : Chip8 → α) (r : Except Fault Chip8) : Option α :=
  match r with
  | .ok s => some (f s)
  | .error _ => none

/-- The fault that ended a run, if one did. -/
def fault_of (r : Except Fault Chip8) : Option Fault :=
  match r with
  | .ok _ => none
  | .error e => some e

/-- Image `LD V0,5; LD V1,3; SUB V0,V1`. -/
def rom_sub : List Nat :=
  [0x60, 0x05, 0x61, 0x03, 0x80, 0x15]

/-- Image `LD V0,31; LD V1,0; LD I,0x208; DRW V0,V1,1` followed by the sprite
byte 0x03 (bits 0 and 1 set). -/
def rom_collide : List Nat :=
  [0x60, 0x1F, 0x61, 0x00, 0xA2, 0x08, 0xD0, 0x11, 0x03]

/-- Image `LD V0,24; LD V1,0; LD I,0x208; DRW V0,V1,1` followed by the sprite
byte 0x80 (a single bit set). -/
def rom_col31 : List Nat :=
  [0x60, 0x18, 0x61, 0x00, 0xA2, 0x08, 0xD0, 0x11, 0x80]

/-- Image `LD V0,60; LD V1,30; LD I,0x208; DRW V0,V1,8` followed by eight
sprite bytes 0xFF. -/
def rom_wrap : List Nat :=
  [0x60, 0x3C, 0x61, 0x1E, 0xA2, 0x08, 0xD0, 0x18,
   0xFF, 0xFF, 0xFF, 0xFF, 0xFF, 0xFF, 0xFF, 0xFF]

/-- Image `LD V0,0; LD V1,0; LD I,0x208; DRW V0,V1,1` followed by the sprite
byte 0x80 (only the most significant bit set). -/
def rom_msb : List Nat :=
  [0x60, 0x00, 0x61, 0x00, 0xA2, 0x08, 0xD0, 0x11, 0x80]

/-- Image of seventeen `CALL`s: the instruction at `0x200 + 2k` calls
`0x200 + 2(k+1)`. -/
def rom_calls : List Nat :=
  [0x22, 0x02, 0x22, 0x04, 0x22, 0x06, 0x22, 0x08, 0x22, 0x0A, 0x22, 0x0C,
   0x22, 0x0E, 0x22, 0x10, 0x22, 0x12, 0x22, 0x14, 0x22, 0x16, 0x22, 0x18,
   0x22, 0x1A, 0x22, 0x1C, 0x22, 0x1E, 0x22, 0x20, 0x22, 0x22]

/-- A state with `V0 = 200`, `V1 = 100`. -/
def st_add : Chip8 :=
  { zeroed with registers := upd (upd zeroed.registers 0 200) 1 100 }

/-- A state with `V0 = 60`, `V1 = 30`, `I = 0x300` and the byte 0xFF there. -/
def st_draw : Chip8 :=
  { zeroed with
    registers := upd (upd zeroed.registers 0 60) 1 30,
    i_register := 0x300,
    memory := upd zeroed.memory 0x300 0xFF }

/-- A state with two return addresses on the stack. -/
def st_ret : Chip8 :=
  { zeroed with stack := upd (upd zeroed.stack 0 0x202) 1 0x2F0, sp := 2, pc := 0x400 }

/-- Two states hold the same sprite data and the same coordinates in `Vx`, `Vy`. -/
def SameSprite (x y : Nat) (a b : Chip8) : Prop :=
  a.memory = b.memory ∧ a.i_register = b.i_register ∧
    a.registers x = b.registers x ∧ a.registers y = b.registers y

/-- Two draws in progress, both of the sprite of `s`, whose displays differ
row by row by the fixed pattern `d`. -/
def DrawRel (x y : Nat) (s : Chip8) (d : Nat → Nat) (a b : Chip8) : Prop :=
  SameSprite x y s a ∧ SameSprite x y s b ∧ ∀ r, a.display r ^^^ b.display r = d r

/-- A host with keys 1 and 2 held down. -/
def host12 : Host :=
  { keyDown := fun i => i == 1 || i == 2, rand := 0 }

/-- Image `LD V0,1; LD F,V0`. -/
def rom_font : List Nat :=
  [0x60, 0x01, 0xF0, 0x29]

/-- Image `LD V0,7; LD I,0x300; LD [I],V0; LD I,0x200; LD V0,[I]`. -/
def rom_bulk : List Nat :=
  [0x60, 0x07, 0xA3, 0x00, 0xF0, 0x55, 0xA2, 0x00, 0xF0, 0x65]

/-- Image `LD V0,K`. -/
def rom_key : List Nat :=
  [0xF0, 0x0A]

/-- Image of the single word `5001`. -/
def rom_skip : List Nat :=
  [0x50, 0x01]

/-- Image of the single word `01EE`. -/
def rom_sys_ret : List Nat :=
  [0x01, 0xEE]

/-- Image `JP 0x203`. -/
def rom_jump_odd : List Nat :=
  [0x12, 0x03]

/-- A state with `V3 = 254` and `I = 0x300`. -/
def st_bcd : Chip8 :=
  { zeroed with registers := upd zeroed.registers 3 254, i_register := 0x300 }

/-- A state with `VF = 200`, `V1 = 100`. -/
def st_flag : Chip8 :=
  { zeroed with registers := upd (upd zeroed.registers 0xF 200) 1 100 }

/-- The accesses of the instruction `w` stay in range and it does not call
`exit(1)`: `RET` finds `1 ≤ sp ≤ 16`, `CALL` finds `sp < 16`, `Dxyn` reads its
`n` sprite bytes below 4096, `Ex9E` and `ExA1` find `Vx ≤ 0xF`, and `Fx33`
writes below 4096. -/
def in_range (s : Chip8) (w : Nat) : Prop :=
  (get_hex w 3 = 0x0 ∧ (w &&& 0xFF) % 256 = 0xEE → 1 ≤ s.sp ∧ s.sp ≤ 16) ∧
  (get_hex w 3 = 0x2 → s.sp < 16) ∧
  (get_hex w 3 = 0xD → get_hex w 0 = 0 ∨ s.i_register + get_hex w 0 ≤ 4096) ∧
  (get_hex w 3 = 0xE ∧ ((w &&& 0xFF) % 256 = 0x9E ∨ (w &&& 0xFF) % 256 = 0xA1) →
    s.registers (get_hex w 2) ≤ 0xF) ∧
  (get_hex w 3 = 0xF ∧ (w &&& 0xFF) % 256 = 0x33 → s.i_register + 2 < 4096)

/-- The instruction `w`, if it is a control transfer, goes to an even address:
`nnn` for `1nnn` and `2nnn`, `nnn + V0` for `Bnnn`, and `stack[sp-1]` for a
word of family `0` with low byte `EE` (`RET`). -/
def even_target (s : Chip8) (w : Nat) : Prop :=
  (get_hex w 3 = 0x1 → ((w &&& 0xFFF) % 65536) % 2 = 0) ∧
  (get_hex w 3 = 0x2 → ((w &&& 0xFFF) % 65536) % 2 = 0) ∧
  (get_hex w 3 = 0xB → (((w &&& 0xFFF) % 65536 + s.registers 0) % 65536) % 2 = 0) ∧
  (get_hex w 3 = 0x0 ∧ (w &&& 0xFF) % 256 = 0xEE → s.stack (s.sp - 1) % 2 = 0)

/-- The instruction words that no `case` label of the dispatch matches: family
`0` with a low byte other than `E0`, `EE`; family `8` with a low nibble among
8, 9, A, B, C, D, F; family `E` with a low byte other than `9E`, `A1`; family
`F` with a low byte that is none of the nine labels. -/
def unhandled (w : Nat) : Prop :=
  (get_hex w 3 = 0x0 ∧ (w &&& 0xFF) % 256 ≠ 0xE0 ∧ (w &&& 0xFF) % 256 ≠ 0xEE) ∨
  (get_hex w 3 = 0x8 ∧ get_hex w 0 ∈ [0x8, 0x9, 0xA, 0xB, 0xC, 0xD, 0xF]) ∨
  (get_hex w 3 = 0xE ∧ (w &&& 0xFF) % 256 ≠ 0x9E ∧ (w &&& 0xFF) % 256 ≠ 0xA1) ∨
  (get_hex w 3 = 0xF ∧
    (w &&& 0xFF) % 256 ∉ [0x07, 0x0A, 0x15, 0x18, 0x1E, 0x29, 0x33, 0x55, 0x65])

/-! ## Lemmas on loops and on the draw -/

theorem for_loop_rel {σ : Type} (R : σ → σ → Prop) (body : σ → Nat → Except Fault σ) (n : Nat)
    (hbody : ∀ i, i < n → ∀ a b, R a b →
      ∃ a' b', body a i = .ok a' ∧ body b i = .ok b' ∧ R a' b') :
    ∀ a b, R a b → ∃ a' b', for_loop body n a = .ok a' ∧ for_loop body n b = .ok b' ∧ R a' b' := by
  induction n with
  | zero => intro a b hab; exact ⟨a, b, rfl, rfl, hab⟩
  | succ n ih =>
    intro a b hab
    obtain ⟨a1, b1, ha1, hb1, h1⟩ :=
      ih (fun i hi => hbody i (Nat.lt_succ_of_lt hi)) a b hab
    obtain ⟨a2, b2, ha2, hb2, h2⟩ := hbody n (Nat.lt_succ_self n) a1 b1 h1
    refine ⟨a2, b2, ?_, ?_, h2⟩
    · simp only [for_loop, ha1, ha2]
    · simp only [for_loop, hb1, hb2]

theorem draw_col_memory (x yi sd : Nat) (s : Chip8) (j : Nat) :
    (draw_col x yi sd s j).memory = s.memory := by
  simp only [draw_col]; split_ifs <;> rfl

theorem draw_col_i_register (x yi sd : Nat) (s : Chip8) (j : Nat) :
    (draw_col x yi sd s j).i_register = s.i_register := by
  simp only [draw_col]; split_ifs <;> rfl

theorem draw_col_registers (x yi sd : Nat) (s : Chip8) (j k : Nat) (hk : k ≠ 0xF) :
    (draw_col x yi sd s j).registers k = s.registers k := by
  simp only [draw_col]; split_ifs <;> simp [upd, hk]

theorem draw_col_display (x yi sd : Nat) (s : Chip8) (j r : Nat) :
    (draw_col x yi sd s j).display r =
      if r = yi then
        s.display yi ^^^ shl_int (((sd >>> j) &&& 0x1) % 256) (((s.registers x + j) % 64) % 256)
      else s.display r := by
  simp only [draw_col]; split_ifs <;> simp_all [upd]

theorem draw_col_sameSprite (x y yi sd : Nat) (s a : Chip8) (j : Nat)
    (hx : x ≠ 0xF) (hy : y ≠ 0xF) (h : SameSprite x y s a) :
    SameSprite x y s (draw_col x yi sd a j) := by
  obtain ⟨h1, h2, h3, h4⟩ := h
  refine ⟨?_, ?_, ?_, ?_⟩
  · rw [draw_col_memory]; exact h1
  · rw [draw_col_i_register]; exact h2
  · rw [draw_col_registers _ _ _ _ _ _ hx]; exact h3
  · rw [draw_col_registers _ _ _ _ _ _ hy]; exact h4

theorem draw_col_rel (x y yi sd : Nat) (s : Chip8) (d : Nat → Nat) (a b : Chip8) (j : Nat)
    (hx : x ≠ 0xF) (hy : y ≠ 0xF) (h : DrawRel x y s d a b) :
    DrawRel x y s d (draw_col x yi sd a j) (draw_col x yi sd b j) := by
  obtain ⟨ha, hb, hd⟩ := h
  refine ⟨draw_col_sameSprite x y yi sd s a j hx hy ha,
    draw_col_sameSprite x y yi sd s b j hx hy hb, ?_⟩
  intro r
  have hxab : a.registers x = b.registers x := ha.2.2.1.symm.trans hb.2.2.1
  rw [draw_col_display, draw_col_display, hxab]
  by_cases hr : r = yi
  · subst hr
    simp only [if_true]
    rw [← hd r, Nat.xor_assoc, Nat.xor_comm (shl_int _ _), Nat.xor_assoc, Nat.xor_self,
      Nat.xor_zero]
  · simp only [hr, if_false]; exact hd r

theorem draw_row_rel (x y : Nat) (s : Chip8) (d : Nat → Nat) (a b : Chip8) (i : Nat)
    (hx : x ≠ 0xF) (hy : y ≠ 0xF) (hi : s.i_register + i < 4096) (h : DrawRel x y s d a b) :
    ∃ a' b', draw_row x y a i = .ok a' ∧ draw_row x y b i = .ok b' ∧ DrawRel x y s d a' b' := by
  have ha := h.1
  have hb := h.2.1
  have hIa : a.i_register + i < 4096 := by rw [← ha.2.1]; exact hi
  have hIb : b.i_register + i < 4096 := by rw [← hb.2.1]; exact hi
  simp only [draw_row, hIa, hIb, if_true]
  rw [← ha.1, ← hb.1, ← ha.2.1, ← hb.2.1, ← ha.2.2.2, ← hb.2.2.2]
  exact for_loop_rel (DrawRel x y s d) _ 8
    (fun j _ a1 b1 h1 => ⟨_, _, rfl, rfl, draw_col_rel x y _ _ s d a1 b1 j hx hy h1⟩) a b h

theorem draw_rel (x y n : Nat) (s : Chip8) (d : Nat → Nat) (a b : Chip8)
    (hx : x ≠ 0xF) (hy : y ≠ 0xF) (hI : s.i_register + n ≤ 4096) (h : DrawRel x y s d a b) :
    ∃ a' b', for_loop (draw_row x y) n a = .ok a' ∧ for_loop (draw_row x y) n b = .ok b' ∧
      DrawRel x y s d a' b' :=
  for_loop_rel (DrawRel x y s d) _ n
    (fun i hi a1 b1 h1 => draw_row_rel x y s d a1 b1 i hx hy (by omega) h1) a b h

/-! ## Lemmas on `memory_set`, the decoder, the key scan and `pc` -/

/-- What the loop of `memory_set` leaves at every index. -/
theorem memory_set_from_spec (m_length offset : Nat) (ds : List Nat) :
    ∀ (memory : Nat → Nat) (i idx : Nat),
      memory_set_from memory m_length offset i ds idx =
        if offset + i ≤ idx ∧ idx < offset + i + ds.length ∧ idx < m_length then
          ds.getD (idx - (offset + i)) 0
        else memory idx := by
  induction ds with
  | nil =>
    intro memory i idx
    have : ¬ (offset + i ≤ idx ∧ idx < offset + i + 0 ∧ idx < m_length) := by omega
    simp only [memory_set_from, List.length_nil, this, if_false]
  | cons d ds ih =>
    intro memory i idx
    by_cases hm : offset + i ≥ m_length
    · have : ¬ (offset + i ≤ idx ∧ idx < offset + i + (d :: ds).length ∧ idx < m_length) := by
        omega
      simp only [memory_set_from, hm, this, if_true, if_false]
    · simp only [memory_set_from, hm, if_false, ih, List.length_cons]
      by_cases h0 : idx = offset + i
      · subst h0
        have h1 : ¬ (offset + (i + 1) ≤ offset + i ∧
            offset + i < offset + (i + 1) + ds.length ∧ offset + i < m_length) := by omega
        have h2 : offset + i ≤ offset + i ∧
            offset + i < offset + i + (ds.length + 1) ∧ offset + i < m_length := by omega
        simp [h1, h2, upd]
      · by_cases h3 : offset + (i + 1) ≤ idx ∧ idx < offset + (i + 1) + ds.length ∧ idx < m_length
        · have h4 : offset + i ≤ idx ∧ idx < offset + i + (ds.length + 1) ∧ idx < m_length := by
            omega
          have h5 : idx - (offset + i) = (idx - (offset + (i + 1))) + 1 := by omega
          rw [if_pos h3, if_pos h4, h5, List.getD_cons_succ]
        · have h4 : ¬ (offset + i ≤ idx ∧ idx < offset + i + (ds.length + 1) ∧ idx < m_length) := by
            omega
          rw [if_neg h3, if_neg h4]; simp only [upd, h0, if_false]

/-- Reading below the cut of `take` reads the list itself. -/
theorem getD_take_lt (data : List Nat) (n k : Nat) (hk : k < n) :
    (data.take n).getD k 0 = data.getD k 0 := by
  simp only [List.getD_eq_getElem?_getD, List.getElem?_take_of_lt hk]

/-- What `memory_set` leaves at every index. -/
theorem memory_set_at (memory : Nat → Nat) (data : List Nat)
    (m_length d_length offset : Nat) (hd : d_length ≤ data.length) (idx : Nat) :
    memory_set memory data m_length d_length offset idx =
      if offset ≤ idx ∧ idx < offset + d_length ∧ idx < m_length then
        data.getD (idx - offset) 0
      else memory idx := by
  have hlen : (data.take d_length).length = d_length := by
    rw [List.length_take]; omega
  rw [memory_set, memory_set_from_spec, hlen]
  by_cases h : offset ≤ idx ∧ idx < offset + d_length ∧ idx < m_length
  · have h' : offset + 0 ≤ idx ∧ idx < offset + 0 + d_length ∧ idx < m_length := by omega
    simp only [h, h', if_true, Nat.add_zero]
    exact getD_take_lt data d_length (idx - offset) (by omega)
  · have h' : ¬ (offset + 0 ≤ idx ∧ idx < offset + 0 + d_length ∧ idx < m_length) := by omega
    simp only [h, h', if_false]

/-- The nibble `digit` of a word, arithmetically. -/
theorem get_hex_eq (w d : Nat) : get_hex w d = (w / 2 ^ (d * 4)) % 16 := by
  have h : (w >>> (d * 4)) &&& 0xF = (w / 2 ^ (d * 4)) % 16 := by
    rw [Nat.shiftRight_eq_div_pow]
    exact Nat.and_pow_two_sub_one_eq_mod _ 4
  simp only [get_hex, h]
  omega

/-- The low byte `nn`, arithmetically. -/
theorem and_FF_eq (w : Nat) : (w &&& 0xFF) % 256 = w % 256 := by
  have h : w &&& 0xFF = w % 256 := Nat.and_pow_two_sub_one_eq_mod w 8
  rw [h]; omega

/-- The low twelve bits `nnn`, arithmetically. -/
theorem and_FFF_eq (w : Nat) : (w &&& 0xFFF) % 65536 = w % 4096 := by
  have h : w &&& 0xFFF = w % 4096 := Nat.and_pow_two_sub_one_eq_mod w 12
  rw [h]; omega

/-- A second store to the same index overwrites the first. -/
theorem upd_upd (a : Nat → Nat) (i v v' : Nat) : upd (upd a i v) i v' = upd a i v' := by
  funext k
  simp only [upd]
  split_ifs <;> rfl

/-- The key scan with no key down changes nothing. -/
theorem key_scan_none (h : Host) (x : Nat) (s : Chip8) (n : Nat)
    (hn : ∀ j, j < n → h.keyDown j = false) :
    for_loop (key_scan h x) n (s, false) = .ok (s, false) := by
  induction n with
  | zero => rfl
  | succ n ih =>
    have h1 := ih (fun j hj => hn j (Nat.lt_succ_of_lt hj))
    have h2 := hn n (Nat.lt_succ_self n)
    simp [for_loop, h1, key_scan, h2]

/-- The key scan only ever stores to `Vx`. -/
theorem key_scan_shape (h : Host) (x : Nat) (s : Chip8) (n : Nat) :
    ∃ r b, for_loop (key_scan h x) n (s, false) = .ok ({ s with registers := r }, b) ∧
      ∀ v, upd r x v = upd s.registers x v := by
  induction n with
  | zero => exact ⟨s.registers, false, rfl, fun _ => rfl⟩
  | succ n ih =>
    obtain ⟨r, b, hr, hu⟩ := ih
    by_cases hk : h.keyDown n = true
    · refine ⟨upd r x (n % 256), true, ?_, ?_⟩
      · simp [for_loop, hr, key_scan, hk]
      · intro v; rw [upd_upd]; exact hu v
    · refine ⟨r, b, ?_, hu⟩
      simp [for_loop, hr, key_scan, hk]

/-- The key scan ends with the highest key that is down in `Vx`. -/
theorem key_scan_last (h : Host) (x : Nat) (s : Chip8) (k : Nat) (hk : h.keyDown k = true)
    (d : Nat) (hd : ∀ j, k < j → j < k + 1 + d → h.keyDown j = false) :
    for_loop (key_scan h x) (k + 1 + d) (s, false)
      = .ok ({ s with registers := upd s.registers x (k % 256) }, true) := by
  induction d with
  | zero =>
    obtain ⟨r, b, hr, hu⟩ := key_scan_shape h x s k
    simp [for_loop, hr, key_scan, hk, hu]
  | succ d ih =>
    have h1 := ih (fun j hj hj' => hd j hj (by omega))
    have h2 := hd (k + 1 + d) (by omega) (by omega)
    have e : k + 1 + (d + 1) = (k + 1 + d) + 1 := by omega
    rw [e]
    simp [for_loop, h1, key_scan, h2]

/-- Family `F` with a low byte that is no label does nothing. -/
theorem exec_misc_other (h : Host) (s : Chip8) (x nn : Nat)
    (hn : nn ∉ [0x07, 0x0A, 0x15, 0x18, 0x1E, 0x29, 0x33, 0x55, 0x65]) :
    exec_misc h s x nn = .ok s := by
  unfold exec_misc
  split <;> simp_all

/-- Family `8` with a low nibble that is no label does nothing. -/
theorem exec_alu_other (s : Chip8) (x y n : Nat)
    (hn : n ∈ [0x8, 0x9, 0xA, 0xB, 0xC, 0xD, 0xF]) :
    exec_alu s x y n = s := by
  unfold exec_alu
  split <;> simp_all

/-- An unhandled word leaves the state as it is. -/
theorem exec_unhandled (h : Host) (s : Chip8) (w : Nat) (hu : unhandled w) :
    exec h s w = .ok s := by
  rcases hu with ⟨hf, h1, h2⟩ | ⟨hf, hn⟩ | ⟨hf, h1, h2⟩ | ⟨hf, hn⟩
  · simp only [exec, hf]
  · simp only [exec, hf, exec_alu_other s _ _ _ hn]
  · simp only [exec, hf]
  · simp only [exec, hf, exec_misc_other h s _ _ hn]

/-- An invariant of the body is an invariant of the loop. -/
theorem for_loop_inv {σ : Type} (P : σ → Prop) (body : σ → Nat → Except Fault σ) (n : Nat)
    (hbody : ∀ i a a', P a → body a i = .ok a' → P a') :
    ∀ a a', P a → for_loop body n a = .ok a' → P a' := by
  induction n with
  | zero =>
    intro a a' ha h
    simp only [for_loop, Except.ok.injEq] at h
    exact h ▸ ha
  | succ n ih =>
    intro a a' ha h
    simp only [for_loop] at h
    cases h1 : for_loop body n a with
    | error e => rw [h1] at h; cases h
    | ok a1 =>
      rw [h1] at h
      exact hbody n a1 a' (ih a a1 ha h1) h

/-- Drawing a pixel does not touch `pc`. -/
theorem draw_col_pc (x yi sd : Nat) (s : Chip8) (j : Nat) :
    (draw_col x yi sd s j).pc = s.pc := by
  simp only [draw_col]; split_ifs <;> rfl

/-- Drawing a row does not touch `pc`. -/
theorem draw_row_pc (x y : Nat) (s s' : Chip8) (i : Nat) (h : draw_row x y s i = .ok s') :
    s'.pc = s.pc := by
  simp only [draw_row] at h
  split_ifs at h
  exact for_loop_inv (fun t => t.pc = s.pc) _ 8
    (fun j a a' ha hb => by
      simp only [Except.ok.injEq] at hb
      rw [← hb, draw_col_pc]; exact ha) s s' rfl h

/-- `Dxyn` does not touch `pc`. -/
theorem draw_pc (x y n : Nat) (s s' : Chip8) (h : draw x y n s = .ok s') : s'.pc = s.pc :=
  for_loop_inv (fun t => t.pc = s.pc) _ n
    (fun i a a' ha hb => (draw_row_pc x y a a' i hb).trans ha) _ s' rfl h

/-- Family `8` does not touch `pc`. -/
theorem exec_alu_pc (s : Chip8) (x y n : Nat) : (exec_alu s x y n).pc = s.pc := by
  unfold exec_alu
  split <;> dsimp only <;> (try split_ifs) <;> rfl

/-- The key scan does not touch `pc`. -/
theorem key_scan_pc (h : Host) (x : Nat) (s : Chip8) (t : Chip8 × Bool)
    (hl : for_loop (key_scan h x) 16 (s, false) = .ok t) : t.1.pc = s.pc :=
  for_loop_inv (fun t => t.1.pc = s.pc) _ 16
    (fun i a a' ha hb => by
      simp only [key_scan] at hb
      split_ifs at hb <;> simp only [Except.ok.injEq] at hb <;> rw [← hb] <;> exact ha)
    _ t rfl hl

/-- Family `F` leaves `pc` or steps it back by 2. -/
theorem exec_misc_pc (h : Host) (s s' : Chip8) (x nn : Nat) (he : exec_misc h s x nn = .ok s') :
    s'.pc = s.pc ∨ s'.pc = (s.pc + 65534) % 65536 := by
  unfold exec_misc at he
  split at he
  case h_2 =>
    split at he
    · rename_i s1 kp hl
      have hp := key_scan_pc h x s _ hl
      simp only at hp
      split_ifs at he <;> simp only [Except.ok.injEq] at he <;> rw [← he]
      · right; simp only [hp]
      · left; exact hp
    · cases he
  case h_7 =>
    split_ifs at he
    simp only [Except.ok.injEq] at he
    left; rw [← he]
  all_goals
    simp only [Except.ok.injEq] at he
    left; rw [← he]

/-- Apart from `1nnn`, `2nnn`, `Bnnn` and `RET`, an instruction leaves `pc`,
advances it by 2 or steps it back by 2. -/
theorem exec_pc (h : Host) (s s' : Chip8) (w : Nat)
    (h1 : get_hex w 3 ≠ 0x1) (h2 : get_hex w 3 ≠ 0x2) (hB : get_hex w 3 ≠ 0xB)
    (hret : ¬ (get_hex w 3 = 0x0 ∧ (w &&& 0xFF) % 256 = 0xEE))
    (he : exec h s w = .ok s') :
    s'.pc = s.pc ∨ s'.pc = (s.pc + 2) % 65536 ∨ s'.pc = (s.pc + 65534) % 65536 := by
  have hlt : get_hex w 3 < 16 := by rw [get_hex_eq]; omega
  generalize hf : get_hex w 3 = f at hlt h1 h2 hB hret
  interval_cases f
  · -- family 0
    have hne : (w &&& 0xFF) % 256 ≠ 0xEE := fun e => hret ⟨rfl, e⟩
    simp only [exec, hf] at he
    split at he
    · simp only [Except.ok.injEq] at he; left; rw [← he]
    · exact absurd (by assumption) hne
    · simp only [Except.ok.injEq] at he; left; rw [← he]
  · exact absurd rfl h1
  · exact absurd rfl h2
  · simp only [exec, hf] at he
    split_ifs at he <;> simp only [Except.ok.injEq] at he <;> rw [← he] <;> simp
  · simp only [exec, hf] at he
    split_ifs at he <;> simp only [Except.ok.injEq] at he <;> rw [← he] <;> simp
  · simp only [exec, hf] at he
    split_ifs at he <;> simp only [Except.ok.injEq] at he <;> rw [← he] <;> simp
  · simp only [exec, hf, Except.ok.injEq] at he; left; rw [← he]
  · simp only [exec, hf, Except.ok.injEq] at he; left; rw [← he]
  · simp only [exec, hf, Except.ok.injEq] at he; left; rw [← he]; exact exec_alu_pc _ _ _ _
  · simp only [exec, hf] at he
    split_ifs at he <;> simp only [Except.ok.injEq] at he <;> rw [← he] <;> simp
  · simp only [exec, hf, Except.ok.injEq] at he; left; rw [← he]
  · exact absurd rfl hB
  · simp only [exec, hf, Except.ok.injEq] at he; left; rw [← he]
  · simp only [exec, hf] at he; left; exact draw_pc _ _ _ _ _ he
  · simp only [exec, hf] at he
    split at he <;> (try split_ifs at he) <;> (try cases he) <;> simp
  · simp only [exec, hf] at he
    rcases exec_misc_pc h s s' _ _ he with e | e
    · left; exact e
    · right; right; exact e

/-! ## Lemmas on start-up, on which instructions have a result, and on the parity of `pc` -/

/-- Where `init` leaves the font, the zero bytes below it and the image. -/
theorem init_layout (image : List Nat) :
    (∀ i, i < 80 → (init image).memory (80 + i) = font.getD i 0) ∧
    (∀ i, i < 80 → (init image).memory i = 0) ∧
    (∀ k, k < image.length → 512 + k < 4096 →
      (init image).memory (512 + k) = image.getD k 0) := by
  have hfont : 80 ≤ font.length := by decide
  have hm : ∀ idx, (init image).memory idx =
      memory_set (memory_set zeroed.memory font 4096 80 80) image 4096 image.length 512 idx :=
    fun _ => rfl
  refine ⟨?_, ?_, ?_⟩
  · intro i hi
    rw [hm, memory_set_at _ _ _ _ _ (le_refl _), if_neg (by omega),
      memory_set_at _ _ _ _ _ hfont, if_pos (by omega), Nat.add_sub_cancel_left]
  · intro i hi
    rw [hm, memory_set_at _ _ _ _ _ (le_refl _), if_neg (by omega),
      memory_set_at _ _ _ _ _ hfont, if_neg (by omega)]
    rfl
  · intro k hk h4
    rw [hm, memory_set_at _ _ _ _ _ (le_refl _), if_pos (by omega), Nat.add_sub_cancel_left]

/-- A loop whose body succeeds under an invariant succeeds. -/
theorem for_loop_ok {σ : Type} (P : σ → Prop) (body : σ → Nat → Except Fault σ) (n : Nat)
    (hbody : ∀ i, i < n → ∀ a, P a → ∃ a', body a i = .ok a' ∧ P a') :
    ∀ a, P a → ∃ a', for_loop body n a = .ok a' ∧ P a' := by
  induction n with
  | zero => intro a ha; exact ⟨a, rfl, ha⟩
  | succ n ih =>
    intro a ha
    obtain ⟨a1, h1, hp1⟩ := ih (fun i hi => hbody i (Nat.lt_succ_of_lt hi)) a ha
    obtain ⟨a2, h2, hp2⟩ := hbody n (Nat.lt_succ_self n) a1 hp1
    exact ⟨a2, by simp only [for_loop, h1, h2], hp2⟩

/-- Drawing a row does not touch `I`. -/
theorem draw_row_i_register (x y : Nat) (s s' : Chip8) (i : Nat)
    (h : draw_row x y s i = .ok s') : s'.i_register = s.i_register := by
  simp only [draw_row] at h
  split_ifs at h
  exact for_loop_inv (fun t => t.i_register = s.i_register) _ 8
    (fun j a a' ha hb => by
      simp only [Except.ok.injEq] at hb
      rw [← hb, draw_col_i_register]; exact ha) s s' rfl h

/-- A row whose sprite byte is below 4096 is drawn. -/
theorem draw_row_ok (x y : Nat) (s : Chip8) (i : Nat) (hi : s.i_register + i < 4096) :
    ∃ s', draw_row x y s i = .ok s' := by
  simp only [draw_row, hi, if_true]
  obtain ⟨a, ha, _⟩ := for_loop_ok (fun _ => True)
    (fun t j => Except.ok (draw_col x (((s.registers y + i) % 32) % 256)
      (s.memory (s.i_register + i)) t j)) 8
    (fun j _ a _ => ⟨_, rfl, trivial⟩) s trivial
  exact ⟨a, ha⟩

/-- `Dxyn` succeeds when its `n` sprite bytes are below 4096. -/
theorem draw_ok (x y n : Nat) (s : Chip8) (hI : n = 0 ∨ s.i_register + n ≤ 4096) :
    ∃ s', draw x y n s = .ok s' := by
  obtain ⟨a, ha, _⟩ := for_loop_ok (fun t => t.i_register = s.i_register) (draw_row x y) n
    (fun i hi a ha => by
      obtain ⟨a', h'⟩ := draw_row_ok x y a i (by rw [ha]; omega)
      exact ⟨a', h', (draw_row_i_register x y a a' i h').trans ha⟩)
    { s with registers := upd s.registers 0xF 0 } rfl
  exact ⟨a, ha⟩

/-- `Dxyn` has no result when one of its `n` sprite bytes is not below 4096. -/
theorem draw_fault (x y n : Nat) (s s' : Chip8) (hn : n ≠ 0) (hI : 4096 < s.i_register + n) :
    draw x y n s ≠ .ok s' := by
  intro h
  obtain ⟨m, rfl⟩ : ∃ m, n = m + 1 := Nat.exists_eq_succ_of_ne_zero hn
  simp only [draw, for_loop] at h
  cases h1 : for_loop (draw_row x y) m { s with registers := upd s.registers 0xF 0 } with
  | error e => rw [h1] at h; cases h
  | ok a =>
    rw [h1] at h
    have hi : a.i_register = s.i_register :=
      for_loop_inv (fun t => t.i_register = s.i_register) _ m
        (fun i b b' hb hr => (draw_row_i_register x y b b' i hr).trans hb) _ a rfl h1
    have hlt : ¬ (a.i_register + m < 4096) := by rw [hi]; omega
    simp only [draw_row, hlt, if_false] at h
    cases h

/-- The key scan never fails. -/
theorem key_scan_ok (h : Host) (x : Nat) (t : Chip8 × Bool) (n : Nat) :
    ∃ t', for_loop (key_scan h x) n t = .ok t' := by
  obtain ⟨a, ha, _⟩ := for_loop_ok (fun _ => True) (key_scan h x) n
    (fun i _ a _ => by
      by_cases hk : h.keyDown i = true
      · exact ⟨_, by rw [key_scan, if_pos hk], trivial⟩
      · exact ⟨_, by rw [key_scan, if_neg hk], trivial⟩) t trivial
  exact ⟨a, ha⟩

/-- Family `F` has a result exactly when `Fx33` writes below 4096. -/
theorem exec_misc_ok_iff (h : Host) (s : Chip8) (x nn : Nat) :
    (∃ s', exec_misc h s x nn = .ok s') ↔ (nn = 0x33 → s.i_register + 2 < 4096) := by
  unfold exec_misc
  split
  case h_2 =>
    obtain ⟨t, ht⟩ := key_scan_ok h x (s, false) 16
    rw [ht]
    constructor
    · intro _ hnn; omega
    · intro _
      obtain ⟨s1, kp⟩ := t
      simp only
      split_ifs <;> exact ⟨_, rfl⟩
  case h_7 =>
    by_cases hI : s.i_register + 2 < 4096
    · simp [hI]
    · simp [hI]
  all_goals
    constructor
    · intro _ hnn
      first
        | omega
        | contradiction
    · intro _; exact ⟨_, rfl⟩

/-- An instruction has a result exactly when it is `in_range`. -/
theorem exec_ok_iff (h : Host) (s : Chip8) (w : Nat) :
    (∃ s', exec h s w = .ok s') ↔ in_range s w := by
  have hlt : get_hex w 3 < 16 := by rw [get_hex_eq]; omega
  obtain ⟨f, hf⟩ : ∃ f, get_hex w 3 = f := ⟨_, rfl⟩
  rw [hf] at hlt
  interval_cases f
  · -- family 0
    by_cases hnn : (w &&& 0xFF) % 256 = 0xEE
    · simp only [exec, in_range, hf, hnn]
      by_cases h0 : s.sp = 0
      · simp [h0]
      · by_cases h16 : s.sp - 1 < 16
        · simp [h0, h16]; omega
        · simp [h0, h16]; omega
    · have hin : in_range s w := by simp [in_range, hf, hnn]
      refine ⟨fun _ => hin, fun _ => ?_⟩
      simp only [exec, hf]
      split <;> first | exact ⟨_, rfl⟩ | contradiction
  · simp [exec, in_range, hf]
  · simp only [exec, in_range, hf]
    by_cases hsp : s.sp < 16 <;> simp [hsp]
  · simp only [exec, in_range, hf]; simp; split_ifs <;> exact ⟨_, rfl⟩
  · simp only [exec, in_range, hf]; simp; split_ifs <;> exact ⟨_, rfl⟩
  · simp only [exec, in_range, hf]; simp; split_ifs <;> exact ⟨_, rfl⟩
  · simp [exec, in_range, hf]
  · simp [exec, in_range, hf]
  · simp [exec, in_range, hf]
  · simp only [exec, in_range, hf]; simp; split_ifs <;> exact ⟨_, rfl⟩
  · simp [exec, in_range, hf]
  · simp [exec, in_range, hf]
  · simp [exec, in_range, hf]
  · -- family D
    have hin : in_range s w ↔ (get_hex w 0 = 0 ∨ s.i_register + get_hex w 0 ≤ 4096) := by
      simp [in_range, hf]
    rw [hin]
    simp only [exec, hf]
    constructor
    · rintro ⟨s', hs'⟩
      by_contra hcon
      have h1 : get_hex w 0 ≠ 0 := fun e => hcon (Or.inl e)
      have h2 : 4096 < s.i_register + get_hex w 0 := by
        by_contra h3; exact hcon (Or.inr (by omega))
      exact draw_fault _ _ _ s s' h1 h2 hs'
    · intro hI
      exact draw_ok _ _ _ s hI
  · -- family E
    by_cases h9 : (w &&& 0xFF) % 256 = 0x9E
    · simp only [exec, in_range, hf, h9]
      by_cases hv : s.registers (get_hex w 2) > 0xF
      · simp [hv]
      · simp [hv]; constructor
        · intro _; omega
        · intro _; split_ifs <;> exact ⟨_, rfl⟩
    · by_cases hA : (w &&& 0xFF) % 256 = 0xA1
      · simp only [exec, in_range, hf, hA]
        by_cases hv : s.registers (get_hex w 2) > 0xF
        · simp [hv]
        · simp [hv]; constructor
          · intro _; omega
          · intro _; split_ifs <;> exact ⟨_, rfl⟩
      · have hin : in_range s w := by simp [in_range, hf, h9, hA]
        refine ⟨fun _ => hin, fun _ => ?_⟩
        simp only [exec, hf]
        exact ⟨_, rfl⟩
  · -- family F
    have hin : in_range s w ↔ ((w &&& 0xFF) % 256 = 0x33 → s.i_register + 2 < 4096) := by
      simp [in_range, hf]
    rw [hin]
    simp only [exec, hf]
    exact exec_misc_ok_iff h s _ _

/-- Where the control transfers leave `pc`, and that every other instruction
keeps an even `pc` even. -/
theorem exec_pc_parity (h : Host) (s s' : Chip8) (w : Nat) (hev : s.pc % 2 = 0)
    (he : exec h s w = .ok s') :
    (s'.pc % 2 = 0 ↔ even_target s w) ∧
    (get_hex w 3 = 0x1 → s'.pc = (w &&& 0xFFF) % 65536) ∧
    (get_hex w 3 = 0x2 → s'.pc = (w &&& 0xFFF) % 65536) ∧
    (get_hex w 3 = 0xB → s'.pc = ((w &&& 0xFFF) % 65536 + s.registers 0) % 65536) ∧
    (get_hex w 3 = 0x0 ∧ (w &&& 0xFF) % 256 = 0xEE → s'.pc = s.stack (s.sp - 1)) := by
  by_cases h1 : get_hex w 3 = 0x1
  · simp only [exec, h1, Except.ok.injEq] at he
    subst he
    simp [even_target, h1]
  by_cases h2 : get_hex w 3 = 0x2
  · simp only [exec, h2] at he
    split_ifs at he
    simp only [Except.ok.injEq] at he
    subst he
    simp [even_target, h2]
  by_cases hB : get_hex w 3 = 0xB
  · simp only [exec, hB, Except.ok.injEq] at he
    subst he
    simp [even_target, hB]
  by_cases hret : get_hex w 3 = 0x0 ∧ (w &&& 0xFF) % 256 = 0xEE
  · simp only [exec, hret.1, hret.2] at he
    split_ifs at he
    simp only [Except.ok.injEq] at he
    subst he
    simp [even_target, hret.1, hret.2]
  · have hpc := exec_pc h s s' w h1 h2 hB hret he
    have ht : even_target s w := by
      refine ⟨fun e => absurd e h1, fun e => absurd e h2, fun e => absurd e hB,
        fun e => absurd e hret⟩
    refine ⟨⟨fun _ => ht, fun _ => by omega⟩, fun e => absurd e h1, fun e => absurd e h2,
      fun e => absurd e hB, fun e => absurd e hret⟩

/-! ## The claims -/

/-- Claim C1. From the start-up state with the image `program` at 512, three
iterations of the main loop (whatever the host does) end with `V1 = 1` and
`pc = 0x202`. -/
theorem cycle_three_program (h1 h2 h3 : Host) :
    (init program).pc = 512 ∧ (init program).sp = 0 ∧
    (∀ k, (init program).registers k = 0) ∧
    [512, 513, 514, 515, 516, 517].map (init program).memory
      = [0x61, 0x00, 0x71, 0x01, 0x12, 0x02] ∧
    ∃ s, run [h1, h2, h3] (init program) = .ok s ∧ s.registers 1 = 1 ∧ s.pc = 0x202 :=
  ⟨rfl, rfl, fun _ => rfl, rfl, _, rfl, rfl, rfl⟩

/-- Claim C2. `8xy4` with `x ≠ 0xF` on byte registers `Vx = a`, `Vy = b`
leaves `Vx = (a + b) mod 256` and `VF = 1` if `a + b > 255`, else `VF = 0`. -/
theorem add_sum_and_carry (h : Host) (s : Chip8) (w : Nat)
    (hfam : get_hex w 3 = 0x8) (hn : get_hex w 0 = 0x4) (hx : get_hex w 2 ≠ 0xF)
    (ha : s.registers (get_hex w 2) < 256) (hb : s.registers (get_hex w 1) < 256) :
    ∃ s', exec h s w = .ok s' ∧
      s'.registers (get_hex w 2)
        = (s.registers (get_hex w 2) + s.registers (get_hex w 1)) % 256 ∧
      s'.registers 0xF
        = if s.registers (get_hex w 2) + s.registers (get_hex w 1) > 255 then 1 else 0 := by
  refine ⟨exec_alu s (get_hex w 2) (get_hex w 1) 4, ?_, ?_, ?_⟩
  · simp only [exec, hfam, hn]
  · by_cases hc : (s.registers (get_hex w 2) + s.registers (get_hex w 1)) % 65536 > 0xFF <;>
      simp [exec_alu, upd, hc] <;> omega
  · have hx' : ¬ (15 = get_hex w 2) := fun e => hx e.symm
    by_cases hc : (s.registers (get_hex w 2) + s.registers (get_hex w 1)) % 65536 > 0xFF <;>
      simp [exec_alu, upd, hc, hx'] <;> split_ifs <;> omega

/-- Witness for C2: `ADD V0,V1` with `V0 = 200`, `V1 = 100`. -/
theorem add_sum_and_carry_witness :
    ∃ s', exec host0 st_add 0x8014 = .ok s' ∧
      s'.registers (get_hex 0x8014 2)
        = (st_add.registers (get_hex 0x8014 2) + st_add.registers (get_hex 0x8014 1)) % 256 ∧
      s'.registers 0xF
        = if st_add.registers (get_hex 0x8014 2) + st_add.registers (get_hex 0x8014 1) > 255
          then 1 else 0 :=
  add_sum_and_carry host0 st_add 0x8014 (by decide) (by decide) (by decide) (by decide)
    (by decide)

/-- Claim C3, the code at `V0 = 5`, `V1 = 3`: after `SUB V0,V1` the difference
`V0 = 2` is right but the flag is `VF = 0` although `5 > 3`. -/
theorem sub_flag_at_5_3 :
    observe (fun s => (s.registers 0, s.registers 0xF))
      (run [host0, host0, host0] (init rom_sub)) = some (2, 0) := by
  decide!

/-- Claim C4. A `Dxyn` with `x ≠ 0xF`, `y ≠ 0xF` and `I + n ≤ 4096` executed
twice in succession: both draws succeed, the first leaves `Vx`, `Vy`, `I` and
memory as they were, and after the second the display is what it was before
the first. -/
theorem draw_twice_restores (h : Host) (s : Chip8) (w : Nat)
    (hfam : get_hex w 3 = 0xD) (hx : get_hex w 2 ≠ 0xF) (hy : get_hex w 1 ≠ 0xF)
    (hI : s.i_register + get_hex w 0 ≤ 4096) :
    ∃ s1 s2, exec h s w = .ok s1 ∧ exec h s1 w = .ok s2 ∧
      s1.registers (get_hex w 2) = s.registers (get_hex w 2) ∧
      s1.registers (get_hex w 1) = s.registers (get_hex w 1) ∧
      s1.i_register = s.i_register ∧ s1.memory = s.memory ∧
      ∀ r, s2.display r = s.display r := by
  have hx' : ¬ (get_hex w 2 = 15) := hx
  have hy' : ¬ (get_hex w 1 = 15) := hy
  have h0 : DrawRel (get_hex w 2) (get_hex w 1) s (fun _ => 0)
      { s with registers := upd s.registers 0xF 0 } { s with registers := upd s.registers 0xF 0 } :=
    ⟨⟨rfl, rfl, by simp [upd, hx'], by simp [upd, hy']⟩,
     ⟨rfl, rfl, by simp [upd, hx'], by simp [upd, hy']⟩, fun r => Nat.xor_self _⟩
  obtain ⟨s1, _, hs1, _, hrel1, _, _⟩ := draw_rel _ _ (get_hex w 0) s _ _ _ hx hy hI h0
  have h1 : DrawRel (get_hex w 2) (get_hex w 1) s (fun r => s.display r ^^^ s1.display r)
      { s with registers := upd s.registers 0xF 0 } { s1 with registers := upd s1.registers 0xF 0 } :=
    ⟨⟨rfl, rfl, by simp [upd, hx'], by simp [upd, hy']⟩,
     ⟨hrel1.1, hrel1.2.1, by simpa [upd, hx'] using hrel1.2.2.1,
       by simpa [upd, hy'] using hrel1.2.2.2⟩, fun r => rfl⟩
  obtain ⟨a', s2, ha', hs2, _, _, hd⟩ := draw_rel _ _ (get_hex w 0) s _ _ _ hx hy hI h1
  have ha1 : a' = s1 := by
    rw [hs1] at ha'; injection ha' with e; exact e.symm
  subst ha1
  refine ⟨a', s2, ?_, ?_, hrel1.2.2.1.symm, hrel1.2.2.2.symm, hrel1.2.1.symm, hrel1.1.symm, ?_⟩
  · simp only [exec, hfam, draw]; exact hs1
  · simp only [exec, hfam, draw]; exact hs2
  · intro r
    have e : a'.display r ^^^ s2.display r = a'.display r ^^^ s.display r := by
      rw [Nat.xor_comm (a'.display r) (s.display r)]; exact hd r
    exact Nat.xor_right_inj.mp e

/-- Witness for C4: `DRW V0,V1,1` at `V0 = 60`, `V1 = 30` with the sprite byte
0xFF at `I = 0x300`. -/
theorem draw_twice_restores_witness :
    ∃ s1 s2, exec host0 st_draw 0xD011 = .ok s1 ∧ exec host0 s1 0xD011 = .ok s2 ∧
      s1.registers (get_hex 0xD011 2) = st_draw.registers (get_hex 0xD011 2) ∧
      s1.registers (get_hex 0xD011 1) = st_draw.registers (get_hex 0xD011 1) ∧
      s1.i_register = st_draw.i_register ∧ s1.memory = st_draw.memory ∧
      ∀ r, s2.display r = st_draw.display r :=
  draw_twice_restores host0 st_draw 0xD011 (by decide) (by decide) (by decide) (by decide)

/-- Claim C5, the code on a cleared display with the sprite byte 0x03 drawn at
`Vx = 31`: no pixel was set before the draw, yet the draw ends with `VF = 1`. -/
theorem draw_collision_on_clear_display :
    observe (fun s => ((List.range 32).map s.display, s.registers 0xF))
      (run [host0, host0, host0] (init rom_collide)) = some (List.replicate 32 0, 0) ∧
    observe (fun s => s.registers 0xF)
      (run [host0, host0, host0, host0] (init rom_collide)) = some 1 := by
  decide!

/-- Claim C6, the code on a cleared display: a sprite with a single set bit
drawn at `Vx = 24` sets the 33 pixels of columns 31..63 of its row, and the
eight rows of 0xFF drawn at `Vx = 60`, `Vy = 30` do not leave row 30 with
exactly the columns 60..63 and 0..3 set. -/
theorem draw_high_columns :
    observe (fun s => s.display 0)
      (run [host0, host0, host0, host0] (init rom_col31)) = some 0xFFFFFFFF80000000 ∧
    observe (fun s => decide (s.display 30 = 0xF00000000000000F))
      (run [host0, host0, host0, host0] (init rom_wrap)) = some false := by
  decide!

/-- Claim C7, the code on a cleared display: the sprite byte 0x80 drawn at
`Vx = 0` sets the pixel of column 7, not that of column 0. -/
theorem draw_bit_order :
    observe (fun s => (s.display 0, (s.display 0 >>> 7) &&& 1, (s.display 0 >>> 0) &&& 1))
      (run [host0, host0, host0, host0] (init rom_msb)) = some (0x80, 1, 0) := by
  decide!

/-- Claim C8. `00EE` with `sp = 0` ends the run through `exit(1)`; with
`1 ≤ sp ≤ 16` it sets `pc` to `stack[sp-1]`, decrements `sp` and leaves the
registers, `I`, the stack contents, memory and the display as they were. -/
theorem ret_exits_or_pops (h : Host) (s : Chip8) :
    (s.sp = 0 → exec h s 0x00EE = .error .exit) ∧
    (1 ≤ s.sp → s.sp ≤ 16 →
      ∃ s', exec h s 0x00EE = .ok s' ∧ s'.pc = s.stack (s.sp - 1) ∧ s'.sp = s.sp - 1 ∧
        s'.registers = s.registers ∧ s'.i_register = s.i_register ∧ s'.stack = s.stack ∧
        s'.memory = s.memory ∧ s'.display = s.display) := by
  have hfam : get_hex 0x00EE 3 = 0 := by decide
  have hnn : (0x00EE &&& 0xFF) % 256 = 0xEE := by decide
  constructor
  · intro h0
    simp only [exec, hfam, hnn, h0, if_true]
  · intro h1 h16
    have hne : ¬ (s.sp = 0) := by omega
    have hlt : s.sp - 1 < 16 := by omega
    refine ⟨{ s with pc := s.stack (s.sp - 1), sp := s.sp - 1 }, ?_,
      rfl, rfl, rfl, rfl, rfl, rfl, rfl⟩
    simp only [exec, hfam, hnn, hne, hlt, if_true, if_false]

/-- Witness for C8: `RET` on the empty stack and on a stack of depth 2. -/
theorem ret_exits_or_pops_witness :
    exec host0 zeroed 0x00EE = .error .exit ∧
    ∃ s', exec host0 st_ret 0x00EE = .ok s' ∧ s'.pc = st_ret.stack (st_ret.sp - 1) ∧
        s'.sp = st_ret.sp - 1 ∧
        s'.registers = st_ret.registers ∧ s'.i_register = st_ret.i_register ∧
        s'.stack = st_ret.stack ∧ s'.memory = st_ret.memory ∧ s'.display = st_ret.display :=
  ⟨(ret_exits_or_pops host0 zeroed).1 rfl,
    (ret_exits_or_pops host0 st_ret).2 (by decide) (by decide)⟩

/-- Claim C9, the code on seventeen nested `CALL`s: sixteen succeed, each
storing the advanced `pc`, and leave `sp = 16`; the seventeenth is not stopped
by `exit(1)` but indexes `stack[16]`, outside the array. -/
theorem call_seventeenth :
    observe (fun s => (s.sp, s.pc, s.stack 0, s.stack 1, s.stack 15))
      (run (List.replicate 16 host0) (init rom_calls))
      = some (16, 0x220, 0x202, 0x204, 0x220) ∧
    fault_of (run (List.replicate 17 host0) (init rom_calls)) = some Fault.outOfBounds := by
  decide!

/-- Claim C10 as stated fails: the timer update maps 0 to 255, and a delay
timer holding 5 is 0 after five updates but 255 after the sixth. -/
theorem timer_zero_not_kept :
    timer_update 0 ≠ 0 ∧
    (tick^[5] { zeroed with timer := 5 }).timer = 0 ∧
    (tick^[6] { zeroed with timer := 5 }).timer ≠ 0 := by
  decide

/-- Claim C10, amended. The update at the end of an iteration maps a nonzero
timer `t` to `t - 1` and maps 0 to 255, for the delay and the sound timer
alike; a delay timer holding 5 is 0 after five updates and 255 after six. -/
theorem timer_update_wraps (s : Chip8) :
    (tick s).timer = (if s.timer = 0 then 255 else s.timer - 1) ∧
    (tick s).sound = (if s.sound = 0 then 255 else s.sound - 1) ∧
    (tick^[5] { s with timer := 5 }).timer = 0 ∧
    (tick^[6] { s with timer := 5 }).timer = 255 :=
  ⟨rfl, rfl, rfl, rfl⟩

/-- Claim C11 as stated fails: after start-up from the six bytes of `program`
(with the `BUFSIZ` of glibc, 8192) `memory[0]` is 0, not the first font byte
0xF0. -/
theorem font_not_at_zero :
    observe (fun s => (s.memory 0, font.getD 0 0)) (startup 8192 (some program))
      = some (0, 0xF0) := by
  decide!

/-- Claim C11, amended. Start-up from a file whose bytes fit the read buffer
(`min(length, BUFSIZE) ≤ BUFSIZ`) succeeds with the eighty font bytes at
`memory[80..160)`, zero in `memory[0..80)` and every file byte `k` with
`512 + k < 4096` at `memory[512 + k]`; a longer file makes `fread` overrun
`buf`, and a missing file ends in `exit(1)`. -/
theorem startup_memory_layout (bufsiz : Nat) (image : List Nat) :
    (min image.length BUFSIZE ≤ bufsiz →
      ∃ s, startup bufsiz (some image) = .ok s ∧
        (∀ i, i < 80 → s.memory (80 + i) = font.getD i 0) ∧
        (∀ i, i < 80 → s.memory i = 0) ∧
        (∀ k, k < image.length → 512 + k < 4096 → s.memory (512 + k) = image.getD k 0)) ∧
    (bufsiz < min image.length BUFSIZE →
      startup bufsiz (some image) = .error .outOfBounds) ∧
    startup bufsiz none = .error .exit := by
  refine ⟨?_, ?_, rfl⟩
  · intro hfit
    refine ⟨init (image.take (min image.length BUFSIZE)), ?_, ?_, ?_, ?_⟩
    · simp only [startup, hfit, if_true]
    · exact (init_layout _).1
    · exact (init_layout _).2.1
    · intro k hk h4
      have hB : BUFSIZE = 1000000 := rfl
      have hk' : k < min image.length BUFSIZE := by
        rw [hB]; omega
      have hlen : k < (image.take (min image.length BUFSIZE)).length := by
        rw [List.length_take]; omega
      rw [(init_layout _).2.2 k hlen h4]
      exact getD_take_lt image _ k hk'
  · intro hbig
    have : ¬ (min image.length BUFSIZE ≤ bufsiz) := by omega
    simp only [startup, this, if_false]

/-- Witness for C11: start-up with a buffer of 8192 bytes, from the six bytes
of `program` and from a file of 9000 bytes. -/
theorem startup_memory_layout_witness :
    (∃ s, startup 8192 (some program) = .ok s ∧
      (∀ i, i < 80 → s.memory (80 + i) = font.getD i 0) ∧
      (∀ i, i < 80 → s.memory i = 0) ∧
      (∀ k, k < program.length → 512 + k < 4096 → s.memory (512 + k) = program.getD k 0)) ∧
    startup 8192 (some (List.replicate 9000 0xA1)) = .error .outOfBounds :=
  ⟨(startup_memory_layout 8192 program).1 (by decide),
    (startup_memory_layout 8192 (List.replicate 9000 0xA1)).2.1
      (by rw [List.length_replicate]; decide)⟩

/-- Claim C12, the code at `V0 = 1`: `LD F,V0` leaves `I = 1`, where memory
holds five zero bytes, while the glyph of digit 1 (`20 60 20 20 70`) is at
`memory[85..90)`. -/
theorem font_address_of_digit_1 :
    observe (fun s => (s.i_register, (List.range 5).map (fun k => s.memory (s.i_register + k)),
        (List.range 5).map (fun k => s.memory (85 + k))))
      (run [host0, host0] (init rom_font))
      = some (1, [0, 0, 0, 0, 0], [0x20, 0x60, 0x20, 0x20, 0x70]) ∧
    (font.drop 5).take 5 = [0x20, 0x60, 0x20, 0x20, 0x70] := by
  decide!

/-- Claim C13. `Fx33` with `I + 2 < 4096` on a byte `Vx = v` stores at
`memory[I]`, `memory[I+1]`, `memory[I+2]` three digits in 0..9 with
`100 h + 10 t + o = v`, and leaves every other memory byte and all registers
as they were. -/
theorem bcd_digits (h : Host) (s : Chip8) (w : Nat)
    (hfam : get_hex w 3 = 0xF) (hnn : (w &&& 0xFF) % 256 = 0x33)
    (hI : s.i_register + 2 < 4096) (hv : s.registers (get_hex w 2) < 256) :
    ∃ s', exec h s w = .ok s' ∧
      s'.memory s.i_register < 10 ∧ s'.memory (s.i_register + 1) < 10 ∧
      s'.memory (s.i_register + 2) < 10 ∧
      100 * s'.memory s.i_register + 10 * s'.memory (s.i_register + 1)
        + s'.memory (s.i_register + 2) = s.registers (get_hex w 2) ∧
      (∀ a, a ≠ s.i_register → a ≠ s.i_register + 1 → a ≠ s.i_register + 2 →
        s'.memory a = s.memory a) ∧
      s'.registers = s.registers := by
  let v := s.registers (get_hex w 2)
  let m := upd (upd (upd s.memory (s.i_register + 2) (v % 10)) (s.i_register + 1) ((v / 10) % 10))
    s.i_register ((v / 100) % 10)
  refine ⟨{ s with memory := m }, ?_, ?_⟩
  · simp only [exec, hfam, hnn]
    rw [exec_misc.eq_def]
    simp only [hI, if_true, m, v]
  refine ⟨?_, ?_, ?_, ?_, ?_, rfl⟩
  · simp [m, v, upd]; omega
  · simp [m, v, upd]; omega
  · simp [m, v, upd]; omega
  · simp [m, v, upd]; omega
  · intro a h0 h1 h2
    simp [m, upd, h0, h1, h2]

/-- Witness for C13: `LD B,V3` with `V3 = 254` and `I = 0x300`. -/
theorem bcd_digits_witness :
    ∃ s', exec host0 st_bcd 0xF333 = .ok s' ∧
      s'.memory st_bcd.i_register < 10 ∧ s'.memory (st_bcd.i_register + 1) < 10 ∧
      s'.memory (st_bcd.i_register + 2) < 10 ∧
      100 * s'.memory st_bcd.i_register + 10 * s'.memory (st_bcd.i_register + 1)
        + s'.memory (st_bcd.i_register + 2) = st_bcd.registers (get_hex 0xF333 2) ∧
      (∀ a, a ≠ st_bcd.i_register → a ≠ st_bcd.i_register + 1 → a ≠ st_bcd.i_register + 2 →
        s'.memory a = st_bcd.memory a) ∧
      s'.registers = st_bcd.registers :=
  bcd_digits host0 st_bcd 0xF333 (by decide) (by decide) (by decide) (by decide)

/-- Claim C14, the code on `LD V0,7; LD I,0x300; LD [I],V0; LD I,0x200;
LD V0,[I]`: after `Fx55` `memory[0x300]` is still 0 although `V0 = 7`, and
after `Fx65` `V0` is still 7 although `memory[0x200]` is 0x60. -/
theorem bulk_transfer_not_done :
    observe (fun s => (s.registers 0, s.i_register, s.memory s.i_register))
      (run [host0, host0, host0] (init rom_bulk)) = some (7, 0x300, 0) ∧
    observe (fun s => (s.registers 0, s.i_register, s.memory s.i_register))
      (run [host0, host0, host0, host0, host0] (init rom_bulk)) = some (7, 0x200, 0x60) := by
  decide!

/-- Claim C15 as stated fails: with keys 1 and 2 both down, `LD V0,K` leaves
`V0 = 2`, not the lowest key 1 (and `pc` at the next instruction). -/
theorem key_wait_takes_last :
    observe (fun s => (s.registers 0, s.pc)) (step host12 (init rom_key)) = some (2, 0x202) := by
  decide!

/-- Claim C15, amended. Fetching and executing `Fx0A` from `pc`: if no key is
down the state is left exactly as it was, `pc` included, so the instruction is
fetched again; if a key is down, `Vx` becomes the highest-index key that is
down, nothing else changes and `pc` is at the next instruction. -/
theorem key_wait (h : Host) (s : Chip8) (w : Nat)
    (hpc : s.pc + 1 < 4096)
    (hw : ((s.memory s.pc <<< 8) ||| s.memory (s.pc + 1)) % 65536 = w)
    (hfam : get_hex w 3 = 0xF) (hnn : (w &&& 0xFF) % 256 = 0x0A) :
    ((∀ j, j < 16 → h.keyDown j = false) → step h s = .ok s) ∧
    (∀ k, k < 16 → h.keyDown k = true → (∀ j, k < j → j < 16 → h.keyDown j = false) →
      step h s = .ok { s with registers := upd s.registers (get_hex w 2) k, pc := s.pc + 2 }) := by
  have hp2 : (s.pc + 2) % 65536 = s.pc + 2 := by omega
  constructor
  · intro hnone
    have hl := key_scan_none h (get_hex w 2) { s with pc := s.pc + 2 } 16 hnone
    simp only [step, hpc, if_true, hw, exec, hfam, hnn, hp2]
    rw [exec_misc.eq_def]
    simp only [hl]
    have e : (s.pc + 2 + 65534) % 65536 = s.pc := by omega
    simp [e]
  · intro k hk hdown hlast
    have hl := key_scan_last h (get_hex w 2) { s with pc := s.pc + 2 } k hdown (15 - k)
      (fun j hj hj' => hlast j hj (by omega))
    have e : k + 1 + (15 - k) = 16 := by omega
    have e2 : k % 256 = k := by omega
    rw [e, e2] at hl
    simp only [step, hpc, if_true, hw, exec, hfam, hnn, hp2]
    rw [exec_misc.eq_def]
    simp [hl]

/-- Witness for C15: `LD V0,K` with no key down, and with keys 1 and 2 down. -/
theorem key_wait_witness :
    step host0 (init rom_key) = .ok (init rom_key) ∧
    step host12 (init rom_key) = .ok { init rom_key with
      registers := upd (init rom_key).registers (get_hex 0xF00A 2) 2,
      pc := (init rom_key).pc + 2 } :=
  ⟨(key_wait host0 (init rom_key) 0xF00A (by decide) (by decide) (by decide) (by decide)).1
      (fun _ _ => rfl),
    (key_wait host12 (init rom_key) 0xF00A (by decide) (by decide) (by decide) (by decide)).2
      2 (by decide) (by decide) (fun j h1 h2 => by interval_cases j <;> rfl)⟩

/-- Claim C16. For every 16-bit word the four nibbles are below 16, `nn` is
below 256, `nnn` below 4096, and they recompose: `w = family * 4096 + x * 256 +
y * 16 + n`, `nn = y * 16 + n`, `nnn = x * 256 + nn`. -/
theorem decode_fields (w : Nat) (hw : w < 65536) :
    get_hex w 3 < 16 ∧ get_hex w 2 < 16 ∧ get_hex w 1 < 16 ∧ get_hex w 0 < 16 ∧
    (w &&& 0xFF) % 256 < 256 ∧ (w &&& 0xFFF) % 65536 < 4096 ∧
    w = get_hex w 3 * 4096 + get_hex w 2 * 256 + get_hex w 1 * 16 + get_hex w 0 ∧
    (w &&& 0xFF) % 256 = get_hex w 1 * 16 + get_hex w 0 ∧
    (w &&& 0xFFF) % 65536 = get_hex w 2 * 256 + (w &&& 0xFF) % 256 := by
  rw [and_FF_eq, and_FFF_eq, get_hex_eq, get_hex_eq, get_hex_eq, get_hex_eq]
  norm_num
  omega

/-- Witness for C16: the word `D123`. -/
theorem decode_fields_witness :
    get_hex 0xD123 3 < 16 ∧ get_hex 0xD123 2 < 16 ∧ get_hex 0xD123 1 < 16 ∧
    get_hex 0xD123 0 < 16 ∧
    (0xD123 &&& 0xFF) % 256 < 256 ∧ (0xD123 &&& 0xFFF) % 65536 < 4096 ∧
    0xD123 = get_hex 0xD123 3 * 4096 + get_hex 0xD123 2 * 256 + get_hex 0xD123 1 * 16
      + get_hex 0xD123 0 ∧
    (0xD123 &&& 0xFF) % 256 = get_hex 0xD123 1 * 16 + get_hex 0xD123 0 ∧
    (0xD123 &&& 0xFFF) % 65536 = get_hex 0xD123 2 * 256 + (0xD123 &&& 0xFF) % 256 :=
  decode_fields 0xD123 (by decide)

/-- Claim C17. After `memory_set`, the byte at `idx` is `data[idx - offset]`
when `offset ≤ idx < offset + d_length` and `idx < m_length`, and is unchanged
otherwise: nothing at or beyond `m_length` is written and data that would land
there is dropped. -/
theorem memory_set_writes_inside (memory : Nat → Nat) (data : List Nat)
    (m_length d_length offset : Nat) (hd : d_length ≤ data.length) (idx : Nat) :
    memory_set memory data m_length d_length offset idx =
      if offset ≤ idx ∧ idx < offset + d_length ∧ idx < m_length then
        data.getD (idx - offset) 0
      else memory idx :=
  memory_set_at memory data m_length d_length offset hd idx

/-- Witness for C17: six bytes copied to offset 4092 of a 4096-byte memory,
read back at index 4093. -/
theorem memory_set_writes_inside_witness :
    memory_set zeroed.memory program 4096 6 4092 4093 =
      if 4092 ≤ 4093 ∧ 4093 < 4092 + 6 ∧ 4093 < 4096 then
        program.getD (4093 - 4092) 0
      else zeroed.memory 4093 :=
  memory_set_writes_inside zeroed.memory program 4096 6 4092 (by decide) 4093

/-- Claim C18 as stated fails: `5001` with `V0 = V0` advances `pc` by 4, and
`01EE` on the empty stack ends the run through `exit(1)`. -/
theorem unknown_not_noop :
    observe (fun s => s.pc) (step host0 (init rom_skip)) = some 0x204 ∧
    fault_of (step host0 (init rom_sys_ret)) = some Fault.exit := by
  decide!

/-- Claim C18, amended. Fetching and executing a word that no `case` label
matches (see `unhandled`) only advances `pc` by 2; a word of family `5` or `9`
is executed as `5xy0` or `9xy0` whatever its low nibble. -/
theorem unhandled_is_noop (h : Host) (s : Chip8) (w : Nat)
    (hpc : s.pc + 1 < 4096)
    (hw : ((s.memory s.pc <<< 8) ||| s.memory (s.pc + 1)) % 65536 = w) :
    (unhandled w → step h s = .ok { s with pc := s.pc + 2 }) ∧
    (get_hex w 3 = 0x5 →
      step h s = if s.registers (get_hex w 2) = s.registers (get_hex w 1)
        then .ok { s with pc := s.pc + 4 } else .ok { s with pc := s.pc + 2 }) ∧
    (get_hex w 3 = 0x9 →
      step h s = if s.registers (get_hex w 2) ≠ s.registers (get_hex w 1)
        then .ok { s with pc := s.pc + 4 } else .ok { s with pc := s.pc + 2 }) := by
  have hp2 : (s.pc + 2) % 65536 = s.pc + 2 := by omega
  have hp4 : (s.pc + 2 + 2) % 65536 = s.pc + 4 := by omega
  refine ⟨?_, ?_, ?_⟩
  · intro hu
    simp only [step, hpc, if_true, hw, hp2, exec_unhandled h _ w hu]
  · intro hf
    simp only [step, hpc, if_true, hw, hp2, exec, hf]
    split_ifs <;> simp_all
  · intro hf
    simp only [step, hpc, if_true, hw, hp2, exec, hf]
    split_ifs <;> simp_all

/-- Witness for C18: the word `0000` fetched from zeroed memory, and the word
`5001` of `rom_skip`. -/
theorem unhandled_is_noop_witness :
    step host0 zeroed = .ok { zeroed with pc := zeroed.pc + 2 } ∧
    step host0 (init rom_skip) =
      if (init rom_skip).registers (get_hex 0x5001 2) = (init rom_skip).registers (get_hex 0x5001 1)
        then .ok { init rom_skip with pc := (init rom_skip).pc + 4 }
        else .ok { init rom_skip with pc := (init rom_skip).pc + 2 } :=
  ⟨(unhandled_is_noop host0 zeroed 0 (by decide) (by decide)).1
      (Or.inl ⟨by decide, by decide, by decide⟩),
    (unhandled_is_noop host0 (init rom_skip) 0x5001 (by decide) (by decide)).2.1 (by decide)⟩

/-- Claim C19 as stated fails: from the start-up state `JP 0x203` leaves the
odd `pc = 0x203`. -/
theorem pc_odd_after_jump :
    observe (fun s => (s.pc, s.pc % 2)) (step host0 (init rom_jump_odd)) = some (0x203, 1) := by
  decide!

/-- Claim C19, amended. `pc` starts at 512. From a state with even `pc`,
fetching and executing the word `w` has a result exactly when the fetch and
the accesses of the instruction are in range and it does not exit
(`in_range`); the resulting `pc` is even exactly when `w` is not a control
transfer to an odd address (`even_target`): `1nnn` and `2nnn` set `pc` to
`nnn`, `Bnnn` to `nnn + V0`, a word of family `0` with low byte `EE` to
`stack[sp-1]`, and every other instruction leaves `pc` even. -/
theorem pc_even_kept (h : Host) (s : Chip8) (w : Nat) (image : List Nat)
    (hev : s.pc % 2 = 0)
    (hw : ((s.memory s.pc <<< 8) ||| s.memory (s.pc + 1)) % 65536 = w) :
    (init image).pc = 512 ∧
    (∀ bufsiz file s0, startup bufsiz file = .ok s0 → s0.pc = 512) ∧
    ((∃ s', step h s = .ok s') ↔ (s.pc + 1 < 4096 ∧ in_range s w)) ∧
    (∀ s', step h s = .ok s' →
      (s'.pc % 2 = 0 ↔ even_target s w) ∧
      (get_hex w 3 = 0x1 → s'.pc = (w &&& 0xFFF) % 65536) ∧
      (get_hex w 3 = 0x2 → s'.pc = (w &&& 0xFFF) % 65536) ∧
      (get_hex w 3 = 0xB → s'.pc = ((w &&& 0xFFF) % 65536 + s.registers 0) % 65536) ∧
      (get_hex w 3 = 0x0 ∧ (w &&& 0xFF) % 256 = 0xEE → s'.pc = s.stack (s.sp - 1))) := by
  refine ⟨rfl, ?_, ?_, ?_⟩
  · intro bufsiz file s0 h0
    cases file with
    | none => cases h0
    | some bytes =>
      simp only [startup] at h0
      split_ifs at h0
      simp only [Except.ok.injEq] at h0
      rw [← h0]
      rfl
  · by_cases hpc : s.pc + 1 < 4096
    · simp only [step, hpc, if_true, hw, true_and]
      exact exec_ok_iff h { s with pc := (s.pc + 2) % 65536 } w
    · simp [step, hpc]
  · intro s' hs
    simp only [step] at hs
    split_ifs at hs with hpc
    rw [hw] at hs
    exact exec_pc_parity h { s with pc := (s.pc + 2) % 65536 } s' w
      (by show (s.pc + 2) % 65536 % 2 = 0; omega) hs

/-- Witness for C19: the third instruction of `program`, `JP 0x202`, fetched
at `pc = 516`. -/
theorem pc_even_kept_witness :
    (init program).pc = 512 ∧
    (∀ bufsiz file s0, startup bufsiz file = .ok s0 → s0.pc = 512) ∧
    ((∃ s', step host0 { init program with pc := 516 } = .ok s') ↔
      (({ init program with pc := 516 } : Chip8).pc + 1 < 4096 ∧
        in_range { init program with pc := 516 } 0x1202)) ∧
    (∀ s', step host0 { init program with pc := 516 } = .ok s' →
      (s'.pc % 2 = 0 ↔ even_target { init program with pc := 516 } 0x1202) ∧
      (get_hex 0x1202 3 = 0x1 → s'.pc = (0x1202 &&& 0xFFF) % 65536) ∧
      (get_hex 0x1202 3 = 0x2 → s'.pc = (0x1202 &&& 0xFFF) % 65536) ∧
      (get_hex 0x1202 3 = 0xB → s'.pc = ((0x1202 &&& 0xFFF) % 65536
        + ({ init program with pc := 516 } : Chip8).registers 0) % 65536) ∧
      (get_hex 0x1202 3 = 0x0 ∧ (0x1202 &&& 0xFF) % 256 = 0xEE →
        s'.pc = ({ init program with pc := 516 } : Chip8).stack
          (({ init program with pc := 516 } : Chip8).sp - 1))) :=
  pc_even_kept host0 { init program with pc := 516 } 0x1202 program (by decide) (by decide)

/-- Claim C20, the code on `RND V0,0xFF`: whatever `rand()` returns, `V0`
becomes `rand() % 254`, which is never 0xFE and never 0xFF. -/
theorem rnd_never_high (h : Host) (s : Chip8) :
    ∃ s', exec h s 0xC0FF = .ok s' ∧ s'.registers 0 = h.rand % 254 ∧
      s'.registers 0 ≠ 0xFE ∧ s'.registers 0 ≠ 0xFF := by
  have hfam : get_hex 0xC0FF 3 = 0xC := by decide
  have hx : get_hex 0xC0FF 2 = 0 := by decide
  have hnn : (0xC0FF &&& 0xFF) % 256 = 0xFF := by decide
  have hr : 0xFF &&& ((h.rand % 254) % 256) = h.rand % 254 := by
    rw [Nat.and_comm]
    have := Nat.and_pow_two_sub_one_eq_mod ((h.rand % 254) % 256) 8
    simp only [Nat.reducePow, Nat.add_one_sub_one] at this
    omega
  refine ⟨{ s with registers := upd s.registers 0 (h.rand % 254) }, ?_, ?_⟩
  · simp only [exec, hfam, hx, hnn, hr]
  · refine ⟨by simp [upd], ?_, ?_⟩ <;> simp [upd] <;> omega

/-- Claim C21. `8xy4` with `x = 0xF` leaves `VF = (VF_before + Vy) mod 256`:
the sum is stored in register `x` after the carry is stored in register 0xF, so
whenever that value differs from the carry bit, `VF` does not hold the carry. -/
theorem add_into_flag (h : Host) (s : Chip8) (w : Nat)
    (hfam : get_hex w 3 = 0x8) (hn : get_hex w 0 = 0x4) (hx : get_hex w 2 = 0xF) :
    ∃ s', exec h s w = .ok s' ∧
      s'.registers 0xF = (s.registers 0xF + s.registers (get_hex w 1)) % 256 ∧
      ((s.registers 0xF + s.registers (get_hex w 1)) % 256
          ≠ (if s.registers 0xF + s.registers (get_hex w 1) > 255 then 1 else 0) →
        s'.registers 0xF
          ≠ (if s.registers 0xF + s.registers (get_hex w 1) > 255 then 1 else 0)) := by
  refine ⟨exec_alu s 0xF (get_hex w 1) 4, ?_, ?_⟩
  · simp only [exec, hfam, hn, hx]
  have hv : (exec_alu s 0xF (get_hex w 1) 4).registers 0xF
      = (s.registers 0xF + s.registers (get_hex w 1)) % 256 := by
    by_cases hc : (s.registers 0xF + s.registers (get_hex w 1)) % 65536 > 0xFF <;>
      simp [exec_alu, upd, hc] <;> omega
  exact ⟨hv, fun hne => by rw [hv]; exact hne⟩

/-- Witness for C21: `ADD VF,V1` with `VF = 200`, `V1 = 100`. -/
theorem add_into_flag_witness :
    ∃ s', exec host0 st_flag 0x8F14 = .ok s' ∧
      s'.registers 0xF = (st_flag.registers 0xF + st_flag.registers (get_hex 0x8F14 1)) % 256 ∧
      ((st_flag.registers 0xF + st_flag.registers (get_hex 0x8F14 1)) % 256
          ≠ (if st_flag.registers 0xF + st_flag.registers (get_hex 0x8F14 1) > 255
              then 1 else 0) →
        s'.registers 0xF
          ≠ (if st_flag.registers 0xF + st_flag.registers (get_hex 0x8F14 1) > 255
              then 1 else 0)) :=
  add_into_flag host0 st_flag 0x8F14 (by decide) (by decide) (by decide)

end Interp
